import Mathlib

/-!
Shallow embedding of `safe.go` (package `safe`): a tool that keeps files
encrypted on disk, tracked by a `safe.yml` manifest, with optional git
commits.  Byte sequences are `List Nat`; external effects (the gpg tool,
the filesystem writes, git, the editor, the child process) are recorded in
an ordered effect trace, and the outcomes of the external calls are
supplied by an `ExtEnv` environment of response functions.  A Go `panic`
(reachable in `Decrypt` via an out-of-range slice) is a third result
constructor besides success and error.
-/

/-- Go error value: its message together with whether `os.IsNotExist`
holds for it (the only predicate on errors that `safe.go` inspects). -/
structure GoErr where
  msg : String
  notExist : Bool
deriving DecidableEq

/-- Embedding of `errors.New`: a plain error, not an is-not-exist one. -/
def mkErr (s : String) : GoErr := ⟨s, false⟩

/-- Result of running a piece of Go code: a value, an error, or a panic. -/
inductive GoResult (α : Type) where
  | ok (a : α)
  | err (e : GoErr)
  | panicked
deriving DecidableEq

/-- One observable external effect performed by an operation, in order. -/
inductive Eff where
  | runDecryptTool (path : String)
  | runEncryptTool (outPath : String) (recipients : List String) (stdin : List Nat)
  | writeFile (path : String) (content : List Nat)
  | writeManifest (path : String) (files : List String)
  | deleteFile (path : String)
  | gitAdd (path : String)
  | gitCommit (action : String) (path : String)
  | runEditor (path : String)
  | setEnv (name : String) (value : String)
  | runChild (args : List String)
deriving DecidableEq

/-- A decoded YAML top-level value, as discriminated by the type switch in
`Exec` (`string`, `[]string`, `int`, and a default case).  The default
case of the Go switch renders the value with the formatting verb `v`;
since that rendering depends on Go reflection, the `vother` variant
carries its rendered string. -/
inductive YVal where
  | vstr (s : String)
  | vstrList (l : List String)
  | vint (n : Int)
  | vother (rendered : String)
deriving DecidableEq

/-- The `Config` struct: manifest location, base directory, recipients,
per-file overrides and the protected-file list. -/
structure Config where
  filepath : String
  baseDir : String
  recipients : List String
  overrides : List (String × List String)
  files : List String
deriving DecidableEq

/-- Environment of external-call outcomes: path resolution
(`filepath.Abs` composed with `filepath.Rel`), file reads, the gpg tool,
file writes and removals, git commit, the editor, YAML decoding,
`os.Setenv`, and the child process of `Exec`. -/
structure ExtEnv where
  resolve : String → String → Except GoErr String
  readFile : String → Except GoErr (List Nat)
  decryptStat : String → Option GoErr
  decryptRun : String → Option GoErr
  decryptOut : String → List Nat
  encryptErr : String → Option GoErr
  writeFileErr : String → Option GoErr
  removeErr : String → Option GoErr
  commitErr : Option GoErr
  editorErr : Option GoErr
  parseYaml : List Nat → Except GoErr (List (String × YVal))
  setenvErr : String → String → Option GoErr
  childErr : Option GoErr

/-- `strings.HasSuffix`, computed on the character lists of the two
strings (Go compares UTF-8 bytes; for the ASCII suffixes used by
`safe.go` the two agree). -/
def strHasSuffix (s suf : String) : Bool := suf.data.isSuffixOf s.data

/-- Drop the last `n` characters of a string. -/
def strDropRight (s : String) (n : Nat) : String :=
  String.mk (s.data.take (s.data.length - n))

/-- `strings.ToUpper`, computed characterwise (agrees with Go on the
ASCII keys used here). -/
def strToUpper (s : String) : String := String.mk (s.data.map Char.toUpper)

/-- `TrimSuffix`: drop the `.gpg.asc` suffix when present
(`strings.TrimSuffix` removes at most one copy; the suffix is 8
characters long). -/
def TrimSuffix (fp : String) : String :=
  if strHasSuffix fp ".gpg.asc" then strDropRight fp 8 else fp

/-- `EnsureSuffix`: append `.gpg.asc` when not already present. -/
def EnsureSuffix (fp : String) : String :=
  if strHasSuffix fp ".gpg.asc" then fp else fp ++ ".gpg.asc"

/-- Insert a string into a lexicographically sorted list. -/
def insertSorted (s : String) : List String → List String
  | [] => [s]
  | t :: ts => if t < s then t :: insertSorted s ts else s :: t :: ts

/-- Lexicographic sort, modelling `sort.Strings` in `WriteConfig` (for
the ASCII paths used here Go byte order and Lean character order agree;
equal strings are indistinguishable so stability does not matter). -/
def sortFiles : List String → List String
  | [] => []
  | f :: fs => insertSorted f (sortFiles fs)

/-- Erase the first occurrence of `pat` in a character list, scanning
left to right. -/
def eraseFirstOcc (pat : List Char) : List Char → List Char
  | [] => []
  | c :: cs =>
    if pat.isPrefixOf (c :: cs) then (c :: cs).drop pat.length
    else c :: eraseFirstOcc pat cs

/-- `strings.Replace(s, pat, "", 1)`: erase the first occurrence of
`pat` in `s`. -/
def replaceFirstErase (s pat : String) : String :=
  String.mk (eraseFirstOcc pat.data s.data)

/-- The characters since the last `/`. -/
def lastComponent (l : List Char) : List Char :=
  l.foldl (fun acc c => if c = '/' then [] else acc ++ [c]) []

/-- `filepath.Base`, for the path shapes that occur here: a nonempty
path without a trailing slash (the last `/`-separated component). -/
def baseName (p : String) : String := String.mk (lastComponent p.data)

/-- The scratch path chosen by `DecryptToTempFile`:
`"/tmp/safe--" + Base(Replace(src, ".gpg.asc", "", 1))`. -/
def tempPath (src : String) : String :=
  "/tmp/safe--" ++ baseName (replaceFirstErase src ".gpg.asc")

/-- The bytes `Encrypt` feeds to the standard input of the external
tool: the plaintext with one trailing newline appended (byte 10 is the
newline character that the Go code appends). -/
def encStdin (byts : List Nat) : List Nat := byts ++ [10]

/-- The environment-variable value computed by the type switch in
`Exec`: a string itself, a string sequence joined with commas, an int
via `strconv.Itoa`, anything else via its default rendering. -/
def envValue : YVal → String
  | .vstr s => s
  | .vstrList l => String.intercalate "," l
  | .vint n => toString n
  | .vother r => r

/-- The recipient list `Encrypt` resolves for a path: the override entry
verbatim when one exists (`recipients, ok := config.Overrides[filepath]`),
otherwise the manifest default. -/
def recipientsFor (c : Config) (fp : String) : List String :=
  match c.overrides.lookup fp with
  | some r => r
  | none => c.recipients

/-- `IsProtected`: resolve the path against the manifest base directory
and test exact membership in `config.Files`.  `resolve` bundles
`filepath.Abs` and `filepath.Rel`; either failure propagates. -/
def IsProtected (ext : ExtEnv) (p : String) (c : Config) : Except GoErr Bool :=
  (ext.resolve c.baseDir p).map (fun rel => c.files.contains rel)

/-- `Decrypt`: stat the file, run the external tool, then return
`stdout.Bytes()[:stdout.Len()-1]`.  When the tool succeeds with empty
output the slice upper bound `stdout.Len()-1` is `-1`, an out-of-range
slice: that branch is `panicked`. -/
def Decrypt (ext : ExtEnv) (fp : String) : GoResult (List Nat) × List Eff :=
  match ext.decryptStat fp with
  | some e => (.err e, [])
  | none =>
    match ext.decryptRun fp with
    | some e => (.err e, [.runDecryptTool fp])
    | none =>
      let out := ext.decryptOut fp
      if out.isEmpty then (.panicked, [.runDecryptTool fp])
      else (.ok out.dropLast, [.runDecryptTool fp])

/-- `Commit`: `git add` each path (per-path errors ignored), then
`git commit -m "safe: <action> <TrimSuffix path>"`. -/
def Commit (ext : ExtEnv) (action : String) (fp : String) (gitFilepaths : List String) :
    GoResult Unit × List Eff :=
  let t := gitFilepaths.map Eff.gitAdd ++ [Eff.gitCommit action (TrimSuffix fp)]
  match ext.commitErr with
  | some e => (.err e, t)
  | none => (.ok (), t)

/-- `Encrypt`: check protection, append the path to the (local copy of
the) file list when not yet protected, resolve recipients, run the
external tool on `byts` plus a trailing newline, persist the manifest
(sorted), and commit when requested.  There is no check that the
resolved recipient list is nonempty. -/
def Encrypt (ext : ExtEnv) (fp : String) (byts : List Nat) (c : Config)
    (commit : Bool) (action : String) : GoResult Unit × List Eff :=
  match IsProtected ext fp c with
  | .error e => (.err e, [])
  | .ok isProt =>
    let c1 := if isProt then c else { c with files := c.files ++ [fp] }
    let t1 : List Eff := [.runEncryptTool fp (recipientsFor c fp) (encStdin byts)]
    match ext.encryptErr fp with
    | some e => (.err e, t1)
    | none =>
      let t2 := t1 ++ [.writeManifest c.filepath (sortFiles c1.files)]
      match ext.writeFileErr c.filepath with
      | some e => (.err e, t2)
      | none =>
        if commit then
          let ct := Commit ext action (TrimSuffix fp) [fp, c.filepath]
          (ct.1, t2 ++ ct.2)
        else (.ok (), t2)

/-- `EncryptFromFile`: read the source file and encrypt its contents. -/
def EncryptFromFile (ext : ExtEnv) (src : String) (target : String) (c : Config)
    (commit : Bool) (action : String) : GoResult Unit × List Eff :=
  match ext.readFile src with
  | .error e => (.err e, [])
  | .ok byts => Encrypt ext target byts c commit action

/-- `Protect`: fail when already protected, encrypt the unsuffixed
original into the suffixed path (with `commit=false`, deferring the
commit), delete the original plaintext, then commit when requested. -/
def Protect (ext : ExtEnv) (fp : String) (commit : Bool) (c : Config) :
    GoResult Unit × List Eff :=
  match IsProtected ext fp c with
  | .error e => (.err e, [])
  | .ok true => (.err (mkErr (fp ++ " already protected")), [])
  | .ok false =>
    let orig := TrimSuffix fp
    let enc := EncryptFromFile ext orig fp c false "protect"
    match enc.1 with
    | .err e => (.err e, enc.2)
    | .panicked => (.panicked, enc.2)
    | .ok _ =>
      match ext.removeErr orig with
      | some e => (.err e, enc.2 ++ [.deleteFile orig])
      | none =>
        if commit then
          let ct := Commit ext "protect" orig [c.filepath, orig, fp]
          (ct.1, enc.2 ++ [.deleteFile orig] ++ ct.2)
        else (.ok (), enc.2 ++ [.deleteFile orig])

/-- `Remove`: fail when not protected; otherwise filter the path out of
the file list, delete the ciphertext, persist the manifest, and commit.
The `commit` parameter is declared but never read by the Go function:
the final `Commit` call is unconditional. -/
def Remove (ext : ExtEnv) (target : String) (commit : Bool) (c : Config) :
    GoResult Unit × List Eff :=
  match IsProtected ext target c with
  | .error e => (.err e, [])
  | .ok false => (.err (mkErr (target ++ " is not protected")), [])
  | .ok true =>
    let c1 := { c with files := c.files.filter (fun f => f != target) }
    match ext.removeErr target with
    | some e => (.err e, [.deleteFile target])
    | none =>
      let t2 : List Eff := [.deleteFile target, .writeManifest c.filepath (sortFiles c1.files)]
      match ext.writeFileErr c.filepath with
      | some e => (.err e, t2)
      | none =>
        let ct := Commit ext "remove" target [target, c.filepath]
        (ct.1, t2 ++ ct.2)

/-- The `for key, rawValue := range env` loop of `Exec`: set one
environment variable per key (name upper-cased, value from the type
switch), stopping at the first `os.Setenv` error.  Go map iteration
order is unspecified; the embedding fixes the decoded association-list
order. -/
def setEnvLoop (ext : ExtEnv) : List (String × YVal) → GoResult Unit × List Eff
  | [] => (.ok (), [])
  | (k, v) :: rest =>
    match ext.setenvErr (strToUpper k) (envValue v) with
    | some e => (.err e, [.setEnv (strToUpper k) (envValue v)])
    | none =>
      let r := setEnvLoop ext rest
      (r.1, .setEnv (strToUpper k) (envValue v) :: r.2)

/-- `Exec`: call `IsProtected` but discard its boolean (only a
resolution error propagates), require the `.yml` extension on the
trimmed name, decrypt, decode YAML, export the environment, and run the
child command.  Indexing `cmdArgs[0]` on an empty argument list is a
panic. -/
def Exec (ext : ExtEnv) (targetPath : String) (c : Config) (cmdArgs : List String) :
    GoResult Unit × List Eff :=
  match IsProtected ext targetPath c with
  | .error e => (.err e, [])
  | .ok _ =>
    if !(strHasSuffix (TrimSuffix targetPath) ".yml") then
      (.err (mkErr "Only able to exec protected .yml files"), [])
    else
      let d := Decrypt ext targetPath
      match d.1 with
      | .panicked => (.panicked, d.2)
      | .err e => (.err e, d.2)
      | .ok byts =>
        match ext.parseYaml byts with
        | .error e => (.err e, d.2)
        | .ok kvs =>
          let se := setEnvLoop ext kvs
          match se.1 with
          | .err e => (.err e, d.2 ++ se.2)
          | .panicked => (.panicked, d.2 ++ se.2)
          | .ok _ =>
            match cmdArgs with
            | [] => (.panicked, d.2 ++ se.2)
            | _ :: _ =>
              let t1 := d.2 ++ se.2 ++ [Eff.runChild cmdArgs]
              match ext.childErr with
              | some e => (.err e, t1)
              | none => (.ok (), t1)

/-- The continuation of `Edit` after `DecryptToTempFile` has returned:
run the editor on the scratch path, re-read the scratch file, short
circuit when the content is unchanged, otherwise re-encrypt.  `cleanup`
records whether a cleanup callback was registered (`defer cleanupFn()`),
in which case the scratch file is removed on every exit path of this
continuation, last (deferred). -/
def editAfter (ext : ExtEnv) (target : String) (c : Config) (commit : Bool)
    (temp : String) (byts : List Nat) (cleanup : Bool) (t0 : List Eff) :
    GoResult Unit × List Eff :=
  let cl : List Eff := if cleanup then [.deleteFile temp] else []
  match ext.editorErr with
  | some e => (.err e, t0 ++ [.runEditor temp] ++ cl)
  | none =>
    match ext.readFile temp with
    | .error e => (.err e, t0 ++ [.runEditor temp] ++ cl)
    | .ok edited =>
      if byts = edited then (.ok (), t0 ++ [.runEditor temp] ++ cl)
      else
        let enc := Encrypt ext target edited c commit "edit"
        (enc.1, t0 ++ [.runEditor temp] ++ enc.2 ++ cl)

/-- `Edit`: decrypt to the scratch path (`DecryptToTempFile`, inlined:
`Decrypt` then write the scratch file).  A non-is-not-exist failure
propagates; an is-not-exist failure continues with nil bytes and no
cleanup callback (on a write failure `DecryptToFile` also returns nil
bytes and a nil cleanup callback).  Then the `editAfter` continuation
runs. -/
def Edit (ext : ExtEnv) (target : String) (c : Config) (commit : Bool) :
    GoResult Unit × List Eff :=
  let temp := tempPath target
  let d := Decrypt ext target
  match d.1 with
  | .panicked => (.panicked, d.2)
  | .err e =>
    if e.notExist then editAfter ext target c commit temp [] false d.2
    else (.err e, d.2)
  | .ok byts =>
    match ext.writeFileErr temp with
    | some e =>
      if e.notExist then editAfter ext target c commit temp [] false (d.2 ++ [Eff.writeFile temp byts])
      else (.err e, d.2 ++ [Eff.writeFile temp byts])
    | none => editAfter ext target c commit temp byts true (d.2 ++ [Eff.writeFile temp byts])

/-- A benign environment: path resolution is the identity, every
external call succeeds, the decrypt tool outputs byte 104 plus the
trailing newline, file reads yield bytes 104 and 105. -/
def extOk : ExtEnv where
  resolve := fun _ p => .ok p
  readFile := fun _ => .ok [104, 105]
  decryptStat := fun _ => none
  decryptRun := fun _ => none
  decryptOut := fun _ => [104, 10]
  encryptErr := fun _ => none
  writeFileErr := fun _ => none
  removeErr := fun _ => none
  commitErr := none
  editorErr := none
  parseYaml := fun _ => .ok []
  setenvErr := fun _ _ => none
  childErr := none

/-- Environment in which the stat of any ciphertext fails with an
is-not-exist error (the target file does not exist yet). -/
def extNoFile : ExtEnv :=
  { extOk with decryptStat := fun _ => some ⟨"no such file or directory", true⟩ }

/-- Environment in which the decrypt tool exits successfully with empty
standard output. -/
def extEmptyOut : ExtEnv :=
  { extOk with decryptOut := fun _ => [] }

/-- Environment in which the decrypt tool outputs exactly the framed
empty payload: one newline byte. -/
def extNewlineOnly : ExtEnv :=
  { extOk with decryptOut := fun _ => encStdin [] }

/-- Environment in which the decrypted document decodes to the single
pair `key : value`. -/
def extKeyValue : ExtEnv :=
  { extOk with parseYaml := fun _ => .ok [("key", YVal.vstr "value")] }

/-- Environment in which every file read yields byte 104, matching the
decrypted content of `extOk` (the editor changed nothing). -/
def extUnchanged : ExtEnv :=
  { extOk with readFile := fun _ => .ok [104] }

/-- Manifest with one protected file. -/
def cfgA : Config := ⟨"safe.yml", "/repo", ["A"], [], ["a.gpg.asc"]⟩

/-- Manifest with no protected files. -/
def cfgNone : Config := ⟨"safe.yml", "/repo", ["A"], [], []⟩

/-- Manifest whose override for `a.gpg.asc` is the empty recipient
list, with a nonempty default recipient list. -/
def cfgOverride : Config := ⟨"safe.yml", "/repo", ["A"], [("a.gpg.asc", [])], ["a.gpg.asc"]⟩

/-- Successful decryption pins down the whole of `Decrypt`: the bytes
are the tool output minus its last byte and the trace is the single
tool run. -/
theorem decrypt_ok_elim (ext : ExtEnv) (fp : String) (b : List Nat)
    (h : (Decrypt ext fp).1 = GoResult.ok b) :
    Decrypt ext fp = (GoResult.ok b, [Eff.runDecryptTool fp]) := by
  unfold Decrypt at h ⊢
  cases hs : ext.decryptStat fp with
  | some e => rw [hs] at h; simp at h
  | none =>
    rw [hs] at h
    cases hr : ext.decryptRun fp with
    | some e => rw [hr] at h; simp at h
    | none =>
      rw [hr] at h
      by_cases he : ext.decryptOut fp = []
      · simp [he] at h
      · simp [he] at h ⊢
        exact h

/-- A successful run of the `Exec` environment loop sets exactly one
variable per decoded pair: the upper-cased key mapped to the value of
the type switch. -/
theorem setEnvLoop_ok_trace (ext : ExtEnv) (kvs : List (String × YVal))
    (h : (setEnvLoop ext kvs).1 = GoResult.ok ()) :
    (setEnvLoop ext kvs).2 =
      kvs.map (fun kv => Eff.setEnv (strToUpper kv.1) (envValue kv.2)) := by
  induction kvs with
  | nil => rfl
  | cons kv rest ih =>
    obtain ⟨k, v⟩ := kv
    unfold setEnvLoop at h ⊢
    cases hs : ext.setenvErr (strToUpper k) (envValue v) with
    | some e => rw [hs] at h; simp at h
    | none =>
      rw [hs] at h
      simp at h ⊢
      exact ih h

/-- C10: whenever the external decryption tool exits successfully but
produces zero bytes on standard output, `Decrypt` reaches the
out-of-range slice `stdout.Bytes()[:stdout.Len()-1]` and panics,
returning neither a value nor an error. -/
theorem C10_decrypt_empty_output_panics (ext : ExtEnv) (fp : String)
    (hstat : ext.decryptStat fp = none) (hrun : ext.decryptRun fp = none)
    (hout : ext.decryptOut fp = []) :
    (Decrypt ext fp).1 = GoResult.panicked := by
  unfold Decrypt
  rw [hstat, hrun]
  simp [hout]

/-- Witness for C10 at a concrete input: the tool succeeds with empty
output and `Decrypt` panics. -/
theorem C10_witness :
    extEmptyOut.decryptStat "a.gpg.asc" = none ∧
    extEmptyOut.decryptRun "a.gpg.asc" = none ∧
    extEmptyOut.decryptOut "a.gpg.asc" = [] ∧
    (Decrypt extEmptyOut "a.gpg.asc").1 = GoResult.panicked :=
  ⟨rfl, rfl, rfl, C10_decrypt_empty_output_panics extEmptyOut "a.gpg.asc" rfl rfl rfl⟩

/-- C8: the framing round-trips byte-for-byte.  `Encrypt` feeds
`encStdin b` (the payload plus one appended trailing newline) to the
external tool; when the standard output of the decrypt tool is exactly that
framed payload, `Decrypt` strips exactly the one trailing byte and
returns `b`, for every byte sequence `b` including the empty one. -/
theorem C8_roundtrip (ext : ExtEnv) (fp : String) (b : List Nat)
    (hstat : ext.decryptStat fp = none) (hrun : ext.decryptRun fp = none)
    (hout : ext.decryptOut fp = encStdin b) :
    (Decrypt ext fp).1 = GoResult.ok b := by
  unfold Decrypt
  rw [hstat, hrun]
  simp [hout, encStdin]

/-- Witness for C8 at the empty byte sequence: the framed empty payload
is one newline byte and `Decrypt` returns the empty sequence. -/
theorem C8_witness :
    extNewlineOnly.decryptOut "a.gpg.asc" = encStdin [] ∧
    (Decrypt extNewlineOnly "a.gpg.asc").1 = GoResult.ok [] :=
  ⟨rfl, C8_roundtrip extNewlineOnly "a.gpg.asc" [] rfl rfl rfl⟩

/-- C9: `Remove` on a path that is not protected fails with the
is-not-protected error and performs no effect at all: no file deletion,
no manifest write, no commit, and the (functional) manifest value is
untouched. -/
theorem C9_remove_not_protected (ext : ExtEnv) (target : String) (commit : Bool) (c : Config)
    (h : IsProtected ext target c = Except.ok false) :
    Remove ext target commit c =
      (GoResult.err (mkErr (target ++ " is not protected")), []) := by
  unfold Remove
  rw [h]

/-- Witness for C9 at a concrete input: an empty manifest and an
untracked path. -/
theorem C9_witness :
    IsProtected extOk "b.gpg.asc" cfgNone = Except.ok false ∧
    Remove extOk "b.gpg.asc" true cfgNone =
      (GoResult.err (mkErr ("b.gpg.asc" ++ " is not protected")), []) :=
  ⟨rfl, C9_remove_not_protected extOk "b.gpg.asc" true cfgNone rfl⟩

/-- C1: the code at the failing input: `Remove` called with the commit
flag `false` on a protected path succeeds and its trace still contains
a git commit — the flag is declared but never read, and the final
`Commit` call is unconditional. -/
theorem C1_remove_commits_despite_false :
    (Remove extOk "a.gpg.asc" false cfgA).1 = GoResult.ok () ∧
    Eff.gitCommit "remove" "a" ∈ (Remove extOk "a.gpg.asc" false cfgA).2 := by
  constructor
  · rfl
  · have h : (Remove extOk "a.gpg.asc" false cfgA).2 =
        [Eff.deleteFile "a.gpg.asc", Eff.writeManifest "safe.yml" [],
         Eff.gitAdd "a.gpg.asc", Eff.gitAdd "safe.yml", Eff.gitCommit "remove" "a"] := by decide
    rw [h]
    simp

/-- A successful non-committing `Encrypt` of a not-yet-protected path
pins down its whole behavior: the tool runs on the framed plaintext,
then the manifest is persisted with the path appended and sorted. -/
theorem encrypt_ok_noncommit_elim (ext : ExtEnv) (fp : String) (byts : List Nat)
    (c : Config) (action : String)
    (hip : IsProtected ext fp c = Except.ok false)
    (h : (Encrypt ext fp byts c false action).1 = GoResult.ok ()) :
    Encrypt ext fp byts c false action =
      (GoResult.ok (),
       [Eff.runEncryptTool fp (recipientsFor c fp) (encStdin byts),
        Eff.writeManifest c.filepath (sortFiles (c.files ++ [fp]))]) := by
  unfold Encrypt at h ⊢
  rw [hip] at h ⊢
  dsimp only at h ⊢
  cases hee : ext.encryptErr fp with
  | some e => rw [hee] at h; simp at h
  | none =>
    rw [hee] at h
    cases hwf : ext.writeFileErr c.filepath with
    | some e => rw [hwf] at h; simp at h
    | none =>
      rw [hwf] at h
      simp

/-- C2: the code at the failing input: `cfg.yml` is not protected (the
manifest tracks nothing), yet `Exec` succeeds, decrypting the file and
running the child command, because the boolean result of the protection
predicate is discarded (only its resolution error propagates). -/
theorem C2_exec_ignores_protection :
    IsProtected extOk "cfg.yml" cfgNone = Except.ok false ∧
    (Exec extOk "cfg.yml" cfgNone ["run"]).1 = GoResult.ok () ∧
    Eff.runDecryptTool "cfg.yml" ∈ (Exec extOk "cfg.yml" cfgNone ["run"]).2 ∧
    Eff.runChild ["run"] ∈ (Exec extOk "cfg.yml" cfgNone ["run"]).2 :=
  ⟨rfl, by decide, by decide, by decide⟩

/-- C3 counterexample: the override for `a.gpg.asc` is empty while the
default recipient list is nonempty, so the resolved recipient list is
empty; yet `Encrypt` succeeds, and its trace shows the external tool
invoked with zero recipients — it did not fail before the invocation. -/
theorem C3_counterexample :
    recipientsFor cfgOverride "a.gpg.asc" = [] ∧
    (Encrypt extOk "a.gpg.asc" [104] cfgOverride false "edit").1 = GoResult.ok () ∧
    Eff.runEncryptTool "a.gpg.asc" [] (encStdin [104]) ∈
      (Encrypt extOk "a.gpg.asc" [104] cfgOverride false "edit").2 := by
  decide

/-- C3 amended: `Encrypt` has no emptiness check on the resolved
recipient list: whenever path resolution succeeds and the resolved list
is empty, its very first effect is still the external tool invocation,
carried out with zero recipient arguments. -/
theorem C3_empty_recipients_still_invokes_tool (ext : ExtEnv) (fp : String)
    (byts : List Nat) (c : Config) (commit : Bool) (action : String) (b : String)
    (hres : ext.resolve c.baseDir fp = Except.ok b)
    (hrec : recipientsFor c fp = []) :
    ∃ t, (Encrypt ext fp byts c commit action).2 =
      Eff.runEncryptTool fp [] (encStdin byts) :: t := by
  have hip : IsProtected ext fp c = Except.ok (c.files.contains b) := by
    unfold IsProtected
    rw [hres]
    rfl
  unfold Encrypt
  rw [hip, hrec]
  dsimp only
  cases hee : ext.encryptErr fp with
  | some e => exact ⟨[], rfl⟩
  | none =>
    cases hwf : ext.writeFileErr c.filepath with
    | some e => exact ⟨_, rfl⟩
    | none =>
      cases commit with
      | false => exact ⟨_, rfl⟩
      | true => exact ⟨_, rfl⟩

/-- Witness for the amended C3 at a concrete input: the empty override
resolves to zero recipients and the tool invocation leads the trace. -/
theorem C3_witness :
    extOk.resolve cfgOverride.baseDir "a.gpg.asc" = Except.ok "a.gpg.asc" ∧
    recipientsFor cfgOverride "a.gpg.asc" = [] ∧
    ∃ t, (Encrypt extOk "a.gpg.asc" [104] cfgOverride true "edit").2 =
      Eff.runEncryptTool "a.gpg.asc" [] (encStdin [104]) :: t :=
  ⟨rfl, by decide,
   C3_empty_recipients_still_invokes_tool extOk "a.gpg.asc" [104] cfgOverride true "edit"
     "a.gpg.asc" rfl (by decide)⟩

/-- C4 counterexample: the target ciphertext does not exist (decryption
fails with an is-not-exist error), the editor creates new content at
the scratch path, `Edit` re-encrypts it and returns success — and the
scratch file is never removed: no cleanup callback was registered on
this exit path. -/
theorem C4_counterexample :
    (Edit extNoFile "a.gpg.asc" cfgA false).1 = GoResult.ok () ∧
    Eff.deleteFile (tempPath "a.gpg.asc") ∉ (Edit extNoFile "a.gpg.asc" cfgA false).2 := by
  decide

/-- C4 amended: on every exit path reached after the decryption
succeeded and the scratch file was written — editor success or failure,
scratch re-read failure, unchanged content, re-encryption success or
failure — the registered cleanup runs and the scratch plaintext removal
is in the trace before `Edit` returns; when the target did not
previously exist no cleanup is registered and an editor-created scratch
file is not removed (see the counterexample). -/
theorem C4_scratch_removed_after_decrypt (ext : ExtEnv) (target : String)
    (c : Config) (commit : Bool) (byts : List Nat)
    (hd : (Decrypt ext target).1 = GoResult.ok byts)
    (hw : ext.writeFileErr (tempPath target) = none) :
    Eff.deleteFile (tempPath target) ∈ (Edit ext target c commit).2 := by
  have hD := decrypt_ok_elim ext target byts hd
  unfold Edit editAfter
  rw [hD]
  dsimp only
  rw [hw]
  dsimp only
  cases he : ext.editorErr with
  | some e => simp
  | none =>
    cases hr : ext.readFile (tempPath target) with
    | error e => simp
    | ok edited =>
      by_cases hb : byts = edited
      · simp [hb]
      · simp [hb]

/-- Witness for the amended C4 at a concrete input: decryption and the
scratch write succeed, and the scratch removal is in the trace. -/
theorem C4_witness :
    (Decrypt extOk "a.gpg.asc").1 = GoResult.ok [104] ∧
    extOk.writeFileErr (tempPath "a.gpg.asc") = none ∧
    Eff.deleteFile (tempPath "a.gpg.asc") ∈ (Edit extOk "a.gpg.asc" cfgA false).2 :=
  ⟨rfl, rfl, C4_scratch_removed_after_decrypt extOk "a.gpg.asc" cfgA false [104] rfl rfl⟩

/-- C5: in the export-to-environment operation, when resolution, the
format check, decryption, YAML decoding and every `os.Setenv` call
succeed, the `Exec` trace contains, for each decoded top-level pair,
one environment-variable assignment whose name is the key upper-cased
and whose value is given by the type switch: the string itself for
string values, the elements joined with commas for string sequences, a
stringified form for ints and for everything else. -/
theorem C5_env_export (ext : ExtEnv) (target : String) (c : Config)
    (args : List String) (b : String) (byts : List Nat) (kvs : List (String × YVal))
    (hres : ext.resolve c.baseDir target = Except.ok b)
    (hyml : strHasSuffix (TrimSuffix target) ".yml" = true)
    (hdec : (Decrypt ext target).1 = GoResult.ok byts)
    (hparse : ext.parseYaml byts = Except.ok kvs)
    (hset : (setEnvLoop ext kvs).1 = GoResult.ok ()) :
    (∀ kv ∈ kvs,
       Eff.setEnv (strToUpper kv.1) (envValue kv.2) ∈ (Exec ext target c args).2)
    ∧ (∀ s, envValue (YVal.vstr s) = s)
    ∧ (∀ l, envValue (YVal.vstrList l) = String.intercalate "," l)
    ∧ (∀ n, envValue (YVal.vint n) = toString n) := by
  refine ⟨?_, fun s => rfl, fun l => rfl, fun n => rfl⟩
  intro kv hkv
  have hD := decrypt_ok_elim ext target byts hdec
  have hip : IsProtected ext target c = Except.ok (c.files.contains b) := by
    unfold IsProtected
    rw [hres]
    rfl
  have hT := setEnvLoop_ok_trace ext kvs hset
  have hmem : Eff.setEnv (strToUpper kv.1) (envValue kv.2) ∈ (setEnvLoop ext kvs).2 := by
    rw [hT]
    exact List.mem_map_of_mem _ hkv
  unfold Exec
  rw [hip]
  dsimp only
  rw [hyml]
  simp only [Bool.not_true, Bool.false_eq_true, if_false]
  rw [hD]
  dsimp only
  rw [hparse]
  dsimp only
  rw [hset]
  dsimp only
  cases args with
  | nil => simp [hmem]
  | cons a rest =>
    cases hc : ext.childErr with
    | some e => simp [hmem]
    | none => simp [hmem]

/-- Witness for C5 at a concrete input: the document decodes to the
single pair of key `key` and string value `value`, and the trace
contains the assignment of `KEY` to `value`. -/
theorem C5_witness :
    extKeyValue.parseYaml [104] = Except.ok [("key", YVal.vstr "value")] ∧
    (Exec extKeyValue "cfg.yml" cfgNone ["run"]).1 = GoResult.ok () ∧
    Eff.setEnv (strToUpper "key") (envValue (YVal.vstr "value")) ∈
      (Exec extKeyValue "cfg.yml" cfgNone ["run"]).2 :=
  ⟨rfl, by decide,
   (C5_env_export extKeyValue "cfg.yml" cfgNone ["run"] "cfg.yml" [104]
      [("key", YVal.vstr "value")] rfl (by decide) rfl rfl rfl).1
     ("key", YVal.vstr "value") (by decide)⟩

/-- C6: in every successful run of `Protect`, the trace is exactly:
the external tool writes the ciphertext, then the manifest is persisted
with the path added to the file list, then the original plaintext is
deleted (followed only by the optional commit) — in particular the
manifest write precedes the plaintext deletion. -/
theorem C6_protect_order (ext : ExtEnv) (fp : String) (commit : Bool) (c : Config)
    (h : (Protect ext fp commit c).1 = GoResult.ok ()) :
    ∃ byts rest,
      (Protect ext fp commit c).2 =
        Eff.runEncryptTool fp (recipientsFor c fp) (encStdin byts) ::
        Eff.writeManifest c.filepath (sortFiles (c.files ++ [fp])) ::
        Eff.deleteFile (TrimSuffix fp) :: rest := by
  unfold Protect at h ⊢
  cases hip : IsProtected ext fp c with
  | error e => rw [hip] at h; simp at h
  | ok p =>
    rw [hip] at h
    cases p with
    | true => simp at h
    | false =>
      dsimp only at h ⊢
      unfold EncryptFromFile at h ⊢
      cases hrf : ext.readFile (TrimSuffix fp) with
      | error e => rw [hrf] at h; simp at h
      | ok byts =>
        rw [hrf] at h
        dsimp only at h ⊢
        have hE : (Encrypt ext fp byts c false "protect").1 = GoResult.ok () := by
          cases hE1 : (Encrypt ext fp byts c false "protect").1 with
          | ok a => rfl
          | err e => rw [hE1] at h; simp at h
          | panicked => rw [hE1] at h; simp at h
        have hEnc := encrypt_ok_noncommit_elim ext fp byts c "protect" hip hE
        rw [hEnc] at h ⊢
        dsimp only at h ⊢
        cases hrm : ext.removeErr (TrimSuffix fp) with
        | some e => rw [hrm] at h; simp at h
        | none =>
          cases commit with
          | false => exact ⟨byts, [], by simp⟩
          | true =>
            exact ⟨byts,
              (Commit ext "protect" (TrimSuffix fp) [c.filepath, TrimSuffix fp, fp]).2,
              by simp⟩

/-- Witness for C6 at a concrete input: protecting a new path with an
empty manifest succeeds and the trace has the stated shape. -/
theorem C6_witness :
    (Protect extOk "a.gpg.asc" false cfgNone).1 = GoResult.ok () ∧
    ∃ byts rest,
      (Protect extOk "a.gpg.asc" false cfgNone).2 =
        Eff.runEncryptTool "a.gpg.asc" (recipientsFor cfgNone "a.gpg.asc") (encStdin byts) ::
        Eff.writeManifest cfgNone.filepath (sortFiles (cfgNone.files ++ ["a.gpg.asc"])) ::
        Eff.deleteFile (TrimSuffix "a.gpg.asc") :: rest :=
  ⟨by decide, C6_protect_order extOk "a.gpg.asc" false cfgNone (by decide)⟩

/-- C7: when the scratch content after the editor exits is byte
identical to the decrypted pre-edit content, `Edit` returns success and
its whole trace is decrypt, scratch write, editor run, scratch cleanup:
it contains no tool re-encryption, no manifest write and no commit. -/
theorem C7_edit_noop (ext : ExtEnv) (target : String) (c : Config) (commit : Bool)
    (byts : List Nat)
    (hd : (Decrypt ext target).1 = GoResult.ok byts)
    (hw : ext.writeFileErr (tempPath target) = none)
    (he : ext.editorErr = none)
    (hr : ext.readFile (tempPath target) = Except.ok byts) :
    Edit ext target c commit =
      (GoResult.ok (),
       [Eff.runDecryptTool target, Eff.writeFile (tempPath target) byts,
        Eff.runEditor (tempPath target), Eff.deleteFile (tempPath target)])
    ∧ (∀ o r s, Eff.runEncryptTool o r s ∉ (Edit ext target c commit).2)
    ∧ (∀ p fs, Eff.writeManifest p fs ∉ (Edit ext target c commit).2)
    ∧ (∀ a p, Eff.gitCommit a p ∉ (Edit ext target c commit).2) := by
  have hD := decrypt_ok_elim ext target byts hd
  have h1 : Edit ext target c commit =
      (GoResult.ok (),
       [Eff.runDecryptTool target, Eff.writeFile (tempPath target) byts,
        Eff.runEditor (tempPath target), Eff.deleteFile (tempPath target)]) := by
    unfold Edit editAfter
    rw [hD]
    dsimp only
    rw [hw]
    dsimp only
    rw [he]
    dsimp only
    rw [hr]
    simp
  refine ⟨h1, ?_, ?_, ?_⟩
  · intro o r s hmem
    rw [h1] at hmem
    simp at hmem
  · intro p fs hmem
    rw [h1] at hmem
    simp at hmem
  · intro a p hmem
    rw [h1] at hmem
    simp at hmem

/-- Witness for C7 at a concrete input: the editor leaves the scratch
content unchanged and the trace is exactly the four
decrypt-write-edit-cleanup effects. -/
theorem C7_witness :
    (Decrypt extUnchanged "a.gpg.asc").1 = GoResult.ok [104] ∧
    Edit extUnchanged "a.gpg.asc" cfgA true =
      (GoResult.ok (),
       [Eff.runDecryptTool "a.gpg.asc", Eff.writeFile (tempPath "a.gpg.asc") [104],
        Eff.runEditor (tempPath "a.gpg.asc"), Eff.deleteFile (tempPath "a.gpg.asc")]) :=
  ⟨rfl, (C7_edit_noop extUnchanged "a.gpg.asc" cfgA true [104] rfl rfl rfl rfl).1⟩
